import Mathlib

/-!
Verification development for the dodo single-table data-access toolkit.

The TypeScript source is shallowly embedded: JS runtime values are a small
inductive universe (`Prim` for scalars, flat records `Rec` for objects),
stateful store operations are explicit state passing over a table of
physical records plus a trace of transport-level events, and fallible code
returns `Except String`.  Each definition mirrors one function of the
source (`dodo.ts`, `entity.ts`, `keys.ts`, `utils.ts`, `plugins.ts`).
-/

namespace Dodo

/-- JS scalar values as used by the toolkit (NaN and symbols are never
produced by the code paths under study). -/
inductive Prim where
  | undef
  | null
  | boolV (b : Bool)
  | numV (n : Int)
  | strV (s : String)
deriving DecidableEq, Repr

/-- A JS object with scalar-valued own enumerable fields, in insertion
order.  Shallow merges, key stripping and field mutation in the source
never inspect nested objects, so a flat record universe suffices. -/
abbrev Rec := List (String × Prim)

/-- A JS value flowing through the plugin pipelines: a scalar or an
object. -/
inductive JSVal where
  | prim (p : Prim)
  | obj (r : Rec)
deriving DecidableEq, Repr

/-- JS truthiness for scalars: `undefined`, `null`, `false`, `0` and the
empty string are falsy. -/
def Prim.truthy : Prim → Bool
  | .undef => false
  | .null => false
  | .boolV b => b
  | .numV n => n != 0
  | .strV s => s != ""

/-- JS truthiness for values: every object is truthy. -/
def JSVal.truthy : JSVal → Bool
  | .prim p => p.truthy
  | .obj _ => true

/-- First-binding field lookup, matching JS property access on objects
without duplicate keys. -/
def Rec.lookup (r : Rec) (k : String) : Option Prim :=
  (r.find? (fun p => p.1 = k)).map (fun p => p.2)

/-- JS object spread `{...a, ...b}`: `a`'s fields in order with `b`
overriding on collision, then `b`'s new fields in order. -/
def mergeRec (a b : Rec) : Rec :=
  (a.map (fun p =>
    match b.lookup p.1 with
    | some v => (p.1, v)
    | none => p)) ++
  b.filter (fun q => (a.lookup q.1).isNone)

/-- Spreading a JS value into an object literal: an object spreads its
fields, a string spreads its characters under numeric string keys, and
other scalars contribute no enumerable properties. -/
def jsToRec (v : JSVal) : Rec :=
  match v with
  | .obj r => r
  | .prim (.strV s) => (s.toList.enum).map (fun ic => (toString ic.1, .strV (String.mk [ic.2])))
  | .prim _ => []

/-- The physical two-part key (`pk`, `sk`). -/
structure DodoKey where
  pk : String
  sk : String
deriving DecidableEq, Repr

/-- The key fields as a record fragment, as spread by `{...item, ...key}`. -/
def keyRec (k : DodoKey) : Rec :=
  [("pk", .strV k.pk), ("sk", .strV k.sk)]

/-- Rest-destructuring `const { pk, sk, ...data } = item`. -/
def stripPkSk (r : Rec) : Rec :=
  r.filter (fun p => p.1 != "pk" && p.1 != "sk")

/-! ### The physical table and the transport layer

The external store keeps items addressed by the values of their `pk` and
`sk` attributes.  A trace of transport-level events records the commands
actually sent, so that theorems can speak about which reads and writes an
operation performs. -/

/-- The key attributes of a stored item, as the store reads them off the
item itself. -/
def recKeyOf (r : Rec) : DodoKey :=
  { pk := match r.lookup "pk" with
          | some (.strV s) => s
          | _ => ""
    sk := match r.lookup "sk" with
          | some (.strV s) => s
          | _ => "" }

/-- Whether a stored item sits at the given key. -/
def atKey (k : DodoKey) (r : Rec) : Bool :=
  r.lookup "pk" == some (.strV k.pk) && r.lookup "sk" == some (.strV k.sk)

/-- A physical table: the list of stored items. -/
abbrev Table := List Rec

/-- `GetCommand`: the item at `key`, if any. -/
def tableGet (tbl : Table) (k : DodoKey) : Option Rec :=
  tbl.find? (atKey k)

/-- `PutCommand`: unconditional insert-or-replace at the item's own key. -/
def tablePut (tbl : Table) (item : Rec) : Table :=
  tbl.filter (fun r => !(atKey (recKeyOf item) r)) ++ [item]

/-- Transport-level events issued by the facade (command, in order). -/
inductive StoreOp where
  | transportGet (k : DodoKey)
  | transportPut (item : Rec)
  | transportDelete (k : DodoKey)
deriving DecidableEq, Repr

/-! ### Store-level plugins and the store facade (`dodo.ts`)

Only the phases exercised by the properties under study (`onBeforePut`,
`onAfterGet`) are carried; the query/delete phases of `DodoPlugin` are
independent optional slots of the same shape. -/

/-- A store-level plugin: optional handlers keyed by phase, acting on raw
values (`dodo.ts` types them `(item: any) => any`). -/
structure DodoPlugin where
  onBeforePut : Option (JSVal → JSVal) := none
  onAfterGet : Option (JSVal → JSVal) := none

/-- `applyPlugins` of `dodo.ts` (lines 40–49): fold the handlers of one
phase over the running value in list order; the handler's result replaces
the running value unconditionally (`result = await fn(result)`). -/
def dodoApplyPlugins (plugins : List DodoPlugin)
    (phase : DodoPlugin → Option (JSVal → JSVal)) (data : JSVal) : JSVal :=
  plugins.foldl (fun v p =>
    match phase p with
    | some f => f v
    | none => v) data

/-- `dodo.get`: fetch by key; `null` when absent, otherwise the item run
through the `onAfterGet` store hooks. -/
def dodoGet (P : List DodoPlugin) (tbl : Table) (k : DodoKey) :
    JSVal × List StoreOp :=
  match tableGet tbl k with
  | none => (.prim .null, [.transportGet k])
  | some item => (dodoApplyPlugins P (fun p => p.onAfterGet) (.obj item), [.transportGet k])

/-- `dodo.put`: run the item through the `onBeforePut` store hooks, then
send an unconditional put of the transformed item. -/
def dodoPut (P : List DodoPlugin) (tbl : Table) (item : JSVal) :
    Table × List StoreOp :=
  let transformed := dodoApplyPlugins P (fun p => p.onBeforePut) item
  (tablePut tbl (jsToRec transformed), [.transportPut (jsToRec transformed)])

/-- `dodo.delete`: unconditional delete of the key. -/
def dodoDelete (tbl : Table) (k : DodoKey) : Table × List StoreOp :=
  (tbl.filter (fun r => !(atKey k r)), [.transportDelete k])

/-- `dodo.update` (dodo.ts lines 85–96): fetch through `this.get`, throw
`Item not found: pk/sk` when the result is falsy, otherwise put the spread
`{...existing, ...updates, ...key}`.  The table is threaded through so the
error path shows its (unchanged) stored state. -/
def dodoUpdate (P : List DodoPlugin) (tbl : Table) (k : DodoKey)
    (updates : Rec) : Except String Unit × Table × List StoreOp :=
  let st1 := dodoGet P tbl k
  if st1.1.truthy then
    let merged := mergeRec (mergeRec (jsToRec st1.1) updates) (keyRec k)
    let st2 := dodoPut P tbl (.obj merged)
    (.ok (), st2.1, st1.2 ++ st2.2)
  else
    (.error ("Item not found: " ++ k.pk ++ "/" ++ k.sk), tbl, st1.2)

/-! ### Key transformers (`keys.ts`) -/

/-- JS template-literal rendering of a scalar (`${x}`). -/
def Prim.jsStr : Prim → String
  | .undef => "undefined"
  | .null => "null"
  | .boolV b => if b then "true" else "false"
  | .numV n => toString n
  | .strV s => s

/-- Rendering of a property access inside a template literal: a missing
property interpolates as `undefined`. -/
def fieldStr (r : Rec) (k : String) : String :=
  match r.lookup k with
  | some p => p.jsStr
  | none => "undefined"

/-- A key transformer: forward mapping always, reverse mapping fallible
(the source realizes the failures as thrown `Error`s). -/
structure KeyTransformer where
  toKey : Rec → DodoKey
  fromId : String → Except String DodoKey

/-- `keys.single`: one record per logical entity. -/
def single (type_ : String) : KeyTransformer where
  toKey item := { pk := type_ ++ "#" ++ fieldStr item "id", sk := type_ ++ "#META" }
  fromId id := .ok { pk := type_ ++ "#" ++ id, sk := type_ ++ "#META" }

/-- `keys.tenant`: records isolated by tenant partition; the reverse
mapping throws. -/
def tenant (type_ : String) : KeyTransformer where
  toKey item := { pk := "TENANT#" ++ fieldStr item "tenantId"
                  sk := type_ ++ "#" ++ fieldStr item "id" }
  fromId _ := .error "Tenant transformer requires tenantId"

/-- `keys.hierarchy`: children grouped under a parent partition; the
reverse mapping throws. -/
def hierarchy (type_ : String) : KeyTransformer where
  toKey item := { pk := type_ ++ "#" ++ fieldStr item "parentId"
                  sk := type_ ++ "#" ++ fieldStr item "id" }
  fromId _ := .error "Hierarchy transformer requires parentId"

/-- `keys.custom`: caller-supplied forward mapping and optional reverse
mapping; without a reverse function `fromId` throws. -/
def custom (toKeyF : Rec → DodoKey) (fromIdF : Option (String → DodoKey)) :
    KeyTransformer where
  toKey := toKeyF
  fromId id :=
    match fromIdF with
    | some f => .ok (f id)
    | none => .error "fromId not implemented"

/-! ### Entity-level plugins and pipeline (`entity.ts`)

`applyPlugins` of `entity.ts` (lines 21–35) is generic over the phase: the
running value starts as the FIRST argument of the call, every later
argument is passed through unchanged to each handler, and the handler's
result replaces the running value through `transformed ?? value`, i.e.
only when it is neither `undefined` nor `null`.  The two arities actually
invoked (`beforeCreate`/`afterGet` on one value, `beforeUpdate` on
`(id, updates)`) are embedded as the two specializations below. -/

/-- An entity-level plugin: the phases exercised by the properties under
study. -/
structure EntityPlugin where
  beforeCreate : Option (JSVal → JSVal) := none
  afterGet : Option (JSVal → JSVal) := none
  beforeUpdate : Option (JSVal → JSVal → JSVal) := none

/-- `transformed ?? value`: nullish coalescing. -/
def nullishOr (transformed value : JSVal) : JSVal :=
  match transformed with
  | .prim .undef => value
  | .prim .null => value
  | v => v

/-- Entity `applyPlugins`, one-argument phases (`beforeCreate`,
`afterGet`). -/
def entityApply1 (plugins : List EntityPlugin)
    (phase : EntityPlugin → Option (JSVal → JSVal)) (value : JSVal) : JSVal :=
  plugins.foldl (fun v p =>
    match phase p with
    | some f => nullishOr (f v) v
    | none => v) value

/-- Entity `applyPlugins`, two-argument phases (`beforeUpdate`): the
running value starts as the first argument (`args[0]`, here the id), while
the second argument is passed unchanged to every handler. -/
def entityApply2 (plugins : List EntityPlugin)
    (phase : EntityPlugin → Option (JSVal → JSVal → JSVal))
    (value arg : JSVal) : JSVal :=
  plugins.foldl (fun v p =>
    match phase p with
    | some f => nullishOr (f v arg) v
    | none => v) value

/-- An entity configuration: name, validation collaborator
(`schema.parse`, a black-box validate-or-fail contract returning the
validated value), key transformer, ordered plugin list. -/
structure EntityConfig where
  name : String
  schema : Rec → Except String Rec
  keys : KeyTransformer
  plugins : List EntityPlugin

/-- `entity.get` (entity.ts lines 52–63): reverse-map the id to a key,
fetch through the facade, return `null` when the fetch is falsy, strip
`pk`/`sk`, validate, run the `afterGet` entity hooks, and return `null`
only when the pipeline result is `undefined`. -/
def entityGet (cfg : EntityConfig) (P : List DodoPlugin) (tbl : Table)
    (id : String) : Except String JSVal × List StoreOp :=
  match cfg.keys.fromId id with
  | .error e => (.error e, [])
  | .ok k =>
    let st := dodoGet P tbl k
    if st.1.truthy then
      let data := stripPkSk (jsToRec st.1)
      match cfg.schema data with
      | .error e => (.error e, st.2)
      | .ok validated =>
        let result := entityApply1 cfg.plugins (fun p => p.afterGet) (.obj validated)
        (.ok (if result = .prim .undef then .prim .null else result), st.2)
    else
      (.ok (.prim .null), st.2)

/-- `entity.update` (entity.ts lines 65–87): fetch the current value via
`entity.get`, throw `name id not found` when it is falsy, run the
`beforeUpdate` entity hooks over `(id, updates)`, spread-merge the hook
output over the current value, validate the merged record, reverse-map
the key, and write `{...validated, ...key}` through the facade `put`. -/
def entityUpdate (cfg : EntityConfig) (P : List DodoPlugin) (tbl : Table)
    (id : String) (updates : Rec) :
    Except String JSVal × Table × List StoreOp :=
  let g := entityGet cfg P tbl id
  match g.1 with
  | .error e => (.error e, tbl, g.2)
  | .ok current =>
    if current.truthy then
      let transformed :=
        entityApply2 cfg.plugins (fun p => p.beforeUpdate) (.prim (.strV id)) (.obj updates)
      let merged := mergeRec (jsToRec current) (jsToRec transformed)
      match cfg.schema merged with
      | .error e => (.error e, tbl, g.2)
      | .ok validated =>
        match cfg.keys.fromId id with
        | .error e => (.error e, tbl, g.2)
        | .ok k =>
          let st := dodoPut P tbl (.obj (mergeRec validated (keyRec k)))
          (.ok (.obj validated), st.1, g.2 ++ st.2)
    else
      (.error (cfg.name ++ " " ++ id ++ " not found"), tbl, g.2)

/-- Modelled from the spec: the entity-level update whose final step
writes through the store facade's own read-modify-write `update` (its
claimed behavior: "write it keyed by the reverse-mapped key via the store
facade's own read-modify-write update, so the facade re-fetches the
record"), identical to `entityUpdate` up to that final write.  Used to
compare the claimed step sequence with the source's. -/
def entityUpdateClaimed (cfg : EntityConfig) (P : List DodoPlugin) (tbl : Table)
    (id : String) (updates : Rec) :
    Except String JSVal × Table × List StoreOp :=
  let g := entityGet cfg P tbl id
  match g.1 with
  | .error e => (.error e, tbl, g.2)
  | .ok current =>
    if current.truthy then
      let transformed :=
        entityApply2 cfg.plugins (fun p => p.beforeUpdate) (.prim (.strV id)) (.obj updates)
      let merged := mergeRec (jsToRec current) (jsToRec transformed)
      match cfg.schema merged with
      | .error e => (.error e, tbl, g.2)
      | .ok validated =>
        match cfg.keys.fromId id with
        | .error e => (.error e, tbl, g.2)
        | .ok k =>
          let st := dodoUpdate P tbl k validated
          (match st.1 with
           | .ok _ => .ok (.obj validated)
           | .error e => .error e, st.2.1, g.2 ++ st.2.2)
    else
      (.error (cfg.name ++ " " ++ id ++ " not found"), tbl, g.2)

/-! ### Bundled plugins (`plugins.ts`) -/

/-- `softDelete` (plugins.ts lines 18–41), with the wall-clock timestamp
supplied as a parameter.  `beforeUpdate` receives the pipeline's running
value in its `_id` slot and the original updates in its second slot, and
bases its output solely on the latter; `afterGet` returns `null` for a
truthy `deleted` field of an object item.  (`"deleted" in updates` on a
non-object would throw in JS; that argument is always the object
`updates` in every call site, and the embedding passes non-objects
through.) -/
def softDelete (now : String) : EntityPlugin where
  beforeUpdate := some (fun _v updates =>
    match updates with
    | .obj u =>
      if u.lookup "deleted" = some (.boolV true) then
        .obj (mergeRec u [("deletedAt", .strV now)])
      else
        updates
    | v => v)
  afterGet := some (fun item =>
    match item with
    | .obj r =>
      match r.lookup "deleted" with
      | some d => if d.truthy then .prim .null else item
      | none => item
    | v => v)

/-! ### Decimal rendering

The compiler interpolates its counters as decimal numerals
(`#n${nameCounter++}`).  The renderer is written with explicit fuel so the
kernel can evaluate it, and its injectivity is proved through the decimal
value of the digit list. -/

/-- Digit list (most significant first) of `n`, empty for `0`; `fuel ≥ n`
guarantees enough iterations. -/
def decDigits : Nat → Nat → List Char
  | 0, _ => []
  | fuel + 1, n =>
    if n = 0 then []
    else decDigits fuel (n / 10) ++ [Char.ofNat (48 + n % 10)]

/-- Decimal rendering of a natural number. -/
def decStr (n : Nat) : String :=
  if n = 0 then "0" else String.mk (decDigits n n)

/-- Reading a digit list back as a number. -/
def decVal (cs : List Char) : Nat :=
  cs.foldl (fun a c => a * 10 + (c.toNat - 48)) 0

/-! ### Filter expression compiler (`utils.ts`, buildFilterExpression)

The predicate tree is the duck-typed shape of the source: the recognized
leaves and combinators, plus the two malformed shapes the source's
fallthrough paths reject (a leaf carrying only an attribute, and a node
with none of the recognized keys), which arise from externally
deserialized predicates. -/

inductive FilterExpr where
  | eqF (attr : String) (v : Prim)
  | neF (attr : String) (v : Prim)
  | existsF (attr : String) (b : Bool)
  | containsF (attr : String) (v : String)
  | inF (attr : String) (vs : List Prim)
  | attrOnly (attr : String)
  | andF (children : List FilterExpr)
  | orF (children : List FilterExpr)
  | notF (child : FilterExpr)
  | malformedF
deriving Repr

/-- The mutable compilation context of one `buildFilterExpression` call:
the two substitution tables and the two monotonic counters. -/
structure BuildState where
  values : List (String × Prim)
  names : List (String × String)
  valueCounter : Nat
  nameCounter : Nat
deriving DecidableEq, Repr

/-- Allocate a fresh name placeholder (`#n${nameCounter++}`) bound to the
attribute. -/
def allocName (attr : String) (s : BuildState) : String × BuildState :=
  let nk := "#n" ++ decStr s.nameCounter
  (nk, { s with names := s.names ++ [(nk, attr)], nameCounter := s.nameCounter + 1 })

/-- Allocate a fresh value placeholder (`:v${valueCounter++}`) bound to
the operand. -/
def allocValue (v : Prim) (s : BuildState) : String × BuildState :=
  let vk := ":v" ++ decStr s.valueCounter
  (vk, { s with values := s.values ++ [(vk, v)], valueCounter := s.valueCounter + 1 })

/-- The `forEach` loop of the `in` operator: one fresh value placeholder
per member, in order. -/
def allocValues (vs : List Prim) (s : BuildState) : List String × BuildState :=
  match vs with
  | [] => ([], s)
  | v :: rest =>
    let a := allocValue v s
    let r := allocValues rest a.2
    (a.1 :: r.1, r.2)

mutual

/-- The recursive `buildExpr` closure (utils.ts lines 174–217), with its
captured mutable state passed explicitly.  A leaf allocates its name
placeholder before dispatching on the operator; the thrown errors become
`Except.error` of the thrown message. -/
def buildExpr : FilterExpr → BuildState → Except String (String × BuildState)
  | .eqF attr v, s =>
    let n := allocName attr s
    let w := allocValue v n.2
    .ok (n.1 ++ " = " ++ w.1, w.2)
  | .neF attr v, s =>
    let n := allocName attr s
    let w := allocValue v n.2
    .ok (n.1 ++ " <> " ++ w.1, w.2)
  | .existsF attr b, s =>
    let n := allocName attr s
    if b then .ok ("attribute_exists(" ++ n.1 ++ ")", n.2)
    else .ok ("attribute_not_exists(" ++ n.1 ++ ")", n.2)
  | .containsF attr v, s =>
    let n := allocName attr s
    let w := allocValue (.strV v) n.2
    .ok ("contains(" ++ n.1 ++ ", " ++ w.1 ++ ")", w.2)
  | .inF attr vs, s =>
    let n := allocName attr s
    let w := allocValues vs n.2
    .ok (n.1 ++ " IN (" ++ String.intercalate "," w.1 ++ ")", w.2)
  | .attrOnly attr, _ =>
    .error ("Unsupported filter condition on attribute " ++ attr)
  | .andF fs, s =>
    match buildExprList fs s with
    | .error e => .error e
    | .ok (es, s1) => .ok ("(" ++ String.intercalate " AND " es ++ ")", s1)
  | .orF fs, s =>
    match buildExprList fs s with
    | .error e => .error e
    | .ok (es, s1) => .ok ("(" ++ String.intercalate " OR " es ++ ")", s1)
  | .notF f, s =>
    match buildExpr f s with
    | .error e => .error e
    | .ok (e, s1) => .ok ("NOT (" ++ e ++ ")", s1)
  | .malformedF, _ =>
    .error "Invalid filter expression: missing attribute, and, or, or not"

/-- The `map(buildExpr)` over a combinator's children, left to right,
propagating the first thrown error. -/
def buildExprList : List FilterExpr → BuildState → Except String (List String × BuildState)
  | [], s => .ok ([], s)
  | f :: fs, s =>
    match buildExpr f s with
    | .error e => .error e
    | .ok (e, s1) =>
      match buildExprList fs s1 with
      | .error e2 => .error e2
      | .ok (es, s2) => .ok (e :: es, s2)

end

/-- The compiler's result: expression string plus the two substitution
tables. -/
structure CompiledFilter where
  expr : String
  names : List (String × String)
  values : List (String × Prim)
deriving DecidableEq, Repr

/-- `buildFilterExpression` (utils.ts lines 168–224): run `buildExpr`
from empty tables and zero counters. -/
def buildFilterExpression (f : FilterExpr) : Except String CompiledFilter :=
  match buildExpr f { values := [], names := [], valueCounter := 0, nameCounter := 0 } with
  | .error e => .error e
  | .ok (e, s) => .ok { expr := e, names := s.names, values := s.values }

/-- The name placeholder for counter value `i`. -/
def nkey (i : Nat) : String := "#n" ++ decStr i

/-- The value placeholder for counter value `i`. -/
def vkey (i : Nat) : String := ":v" ++ decStr i

mutual

/-- Whether a predicate tree contains a node of one of the shapes the
compiler's fallthrough paths reject: a leaf with no recognized operator,
or a node with none of the recognized keys. -/
def containsBad : FilterExpr → Bool
  | .attrOnly _ => true
  | .malformedF => true
  | .andF fs => containsBadList fs
  | .orF fs => containsBadList fs
  | .notF f => containsBad f
  | _ => false

/-- `containsBad` over a child list. -/
def containsBadList : List FilterExpr → Bool
  | [] => false
  | f :: fs => containsBad f || containsBadList fs

end

/-! ### Encryption helpers (`utils.ts` lines 97–107) and the encryption
plugin (`plugins.ts` lines 51–73)

`JSON.stringify`/`JSON.parse` and the base64 codec are platform
collaborators (spec scope: the algorithms themselves are external; only
the plugin contract is core), so they enter the embedding as an abstract
platform record.  `encrypt` and `decrypt` keep the source's structure:
stringify-then-encode, and decode-then-parse with the thrown-error
fallback returning the input unchanged. -/

/-- The platform collaborators used by `encrypt`/`decrypt`:
`JSON.stringify` on scalars, `JSON.parse` (`none` models a thrown
`SyntaxError`), and the base64 codec. -/
structure JsonPlatform where
  stringifyJ : Prim → String
  parseJ : String → Option Prim
  b64enc : String → String
  b64dec : String → String

/-- `encrypt(value)`: base64 of the JSON text. -/
def encrypt (pf : JsonPlatform) (v : Prim) : Prim :=
  .strV (pf.b64enc (pf.stringifyJ v))

/-- `decrypt(encrypted)`: decode and parse, returning the input on any
thrown error (including the type error a non-string input raises). -/
def decrypt (pf : JsonPlatform) (v : Prim) : Prim :=
  match v with
  | .strV s =>
    match pf.parseJ (pf.b64dec s) with
    | some w => w
    | none => .strV s
  | w => w

/-- One iteration of the plugin's `fields.forEach` loop: when the field
is present on the record (`field in encrypted`), assign `f` of its value
back to it (`encrypted[field] = f(encrypted[field])`); otherwise leave
the record unchanged.  (A JS object has no duplicate keys, so replacing
the binding in place is the property assignment.) -/
def applyField (f : Prim → Prim) (r : Rec) (field : String) : Rec :=
  if (r.lookup field).isSome then
    r.map (fun p => if p.1 = field then (p.1, f p.2) else p)
  else r

/-- The `fields.forEach` loop of the encryption plugin over the
`{...item}` copy: one application of `f` per OCCURRENCE in `fields`, in
list order — a field listed twice is transformed twice. -/
def mapListedFields (fields : List String) (f : Prim → Prim) (r : Rec) : Rec :=
  fields.foldl (applyField f) r

/-- `encryption(fields)` (plugins.ts lines 51–73): a store-level plugin
whose `onBeforePut` encrypts and whose `onAfterGet` decrypts the listed
fields that are present on the item (via the `{...item}` copy, so a
non-object input yields its spread). -/
def encryption (pf : JsonPlatform) (fields : List String) : DodoPlugin where
  onBeforePut := some (fun item => .obj (mapListedFields fields (encrypt pf) (jsToRec item)))
  onAfterGet := some (fun item => .obj (mapListedFields fields (decrypt pf) (jsToRec item)))

/-! ### Lookup characterizations of the record operations -/

theorem lookup_cons (p : String × Prim) (ps : Rec) (k : String) :
    Rec.lookup (p :: ps) k = if p.1 = k then some p.2 else Rec.lookup ps k := by
  by_cases hp : p.1 = k <;> simp [Rec.lookup, List.find?, hp]

theorem lookup_append (xs ys : Rec) (k : String) :
    Rec.lookup (xs ++ ys) k =
      (Rec.lookup xs k).orElse (fun _ => Rec.lookup ys k) := by
  induction xs with
  | nil => simp [Rec.lookup]
  | cons p ps ih =>
    rw [List.cons_append, lookup_cons, lookup_cons]
    by_cases hp : p.1 = k
    · simp [hp]
    · simp [hp, ih]

theorem lookup_filter_key (pred : String → Bool) (r : Rec) (k : String) :
    Rec.lookup (r.filter (fun p => pred p.1)) k =
      if pred k then r.lookup k else none := by
  induction r with
  | nil => simp [Rec.lookup]
  | cons p ps ih =>
    by_cases hpred : pred p.1
    · rw [List.filter_cons_of_pos (by simpa using hpred), lookup_cons, lookup_cons]
      by_cases hp : p.1 = k
      · subst hp; simp [hpred]
      · simp [hp, ih]
    · rw [List.filter_cons_of_neg (by simpa using hpred), lookup_cons, ih]
      by_cases hp : p.1 = k
      · subst hp; simp [hpred]
      · simp [hp]

theorem lookup_map_merge (a b : Rec) (k : String) :
    Rec.lookup (a.map (fun p =>
        match b.lookup p.1 with
        | some v => (p.1, v)
        | none => p)) k =
      match a.lookup k, b.lookup k with
      | some _, some w => some w
      | some v, none => some v
      | none, _ => none := by
  induction a with
  | nil => simp [Rec.lookup]
  | cons p ps ih =>
    rw [List.map_cons, lookup_cons, lookup_cons]
    by_cases hp : p.1 = k
    · subst hp
      cases hb : b.lookup p.1 <;> simp [hb]
    · have hkey : (match b.lookup p.1 with
        | some v => (p.1, v)
        | none => p).1 = p.1 := by
        cases b.lookup p.1 <;> rfl
      rw [hkey]
      simp only [hp, if_false, ih]

theorem mergeRec_lookup (a b : Rec) (k : String) :
    (mergeRec a b).lookup k = ((b.lookup k).orElse (fun _ => a.lookup k)) := by
  unfold mergeRec
  rw [lookup_append, lookup_map_merge]
  have hfilter : Rec.lookup (b.filter (fun q => (a.lookup q.1).isNone)) k =
      if (Option.isNone (a.lookup k)) then b.lookup k else none := by
    exact lookup_filter_key (fun s => (a.lookup s).isNone) b k
  rw [hfilter]
  cases ha : a.lookup k <;> cases hb : b.lookup k <;> simp [ha, hb]

theorem stripPkSk_lookup (r : Rec) (k : String) (h1 : k ≠ "pk") (h2 : k ≠ "sk") :
    (stripPkSk r).lookup k = r.lookup k := by
  unfold stripPkSk
  rw [lookup_filter_key (fun s => s != "pk" && s != "sk") r k]
  simp [h1, h2]


/-! ### Decimal rendering lemmas -/

theorem decVal_append_digit (cs : List Char) (c : Char) :
    decVal (cs ++ [c]) = decVal cs * 10 + (c.toNat - 48) := by
  simp [decVal, List.foldl_append]

theorem decVal_decDigits : ∀ fuel n, n ≤ fuel → decVal (decDigits fuel n) = n := by
  intro fuel
  induction fuel with
  | zero =>
    intro n hn
    have : n = 0 := Nat.le_zero.mp hn
    simp [this, decDigits, decVal]
  | succ fuel ih =>
    intro n hn
    by_cases h0 : n = 0
    · simp [h0, decDigits, decVal]
    · have hdiv : n / 10 ≤ fuel := by
        have hlt : n / 10 < n := Nat.div_lt_self (Nat.pos_of_ne_zero h0) (by omega)
        omega
      have hchar : (Char.ofNat (48 + n % 10)).toNat = 48 + n % 10 := by
        have hm : n % 10 < 10 := Nat.mod_lt _ (by omega)
        interval_cases h : (n % 10) <;> decide
      rw [decDigits, if_neg h0, decVal_append_digit, ih _ hdiv, hchar]
      omega

theorem decStr_injective : ∀ m n, decStr m = decStr n → m = n := by
  intro m n h
  by_cases hm : m = 0 <;> by_cases hn : n = 0
  · omega
  · exfalso
    rw [decStr, decStr, if_pos hm, if_neg hn] at h
    have hdata : ("0" : String).data = decDigits n n := by
      rw [h]
    have : decVal ("0" : String).data = decVal (decDigits n n) := by rw [hdata]
    rw [decVal_decDigits n n (Nat.le_refl n)] at this
    have h0 : decVal ("0" : String).data = 0 := by decide
    omega
  · exfalso
    rw [decStr, decStr, if_neg hm, if_pos hn] at h
    have hdata : decDigits m m = ("0" : String).data := by
      rw [← h]
    have : decVal (decDigits m m) = decVal ("0" : String).data := by rw [hdata]
    rw [decVal_decDigits m m (Nat.le_refl m)] at this
    have h0 : decVal ("0" : String).data = 0 := by decide
    omega
  · rw [decStr, decStr, if_neg hm, if_neg hn] at h
    have hdata : decDigits m m = decDigits n n := by
      have := congrArg String.data h
      simpa using this
    have := congrArg decVal hdata
    rwa [decVal_decDigits m m (Nat.le_refl m),
      decVal_decDigits n n (Nat.le_refl n)] at this

/-! ## Claims about the key transformers -/

/-- C9: for every type string and every record carrying the required
fields, the forward mappings produce exactly the documented key shapes,
and the single transformer's reverse mapping yields the same pair. -/
theorem C9_forward_key_shapes (t1 t2 t3 i1 i2 i3 tid pid : String)
    (r1 r2 r3 : Rec)
    (h1 : r1.lookup "id" = some (.strV i1))
    (h2 : r2.lookup "id" = some (.strV i2))
    (h2t : r2.lookup "tenantId" = some (.strV tid))
    (h3 : r3.lookup "id" = some (.strV i3))
    (h3p : r3.lookup "parentId" = some (.strV pid)) :
    (single t1).toKey r1 = { pk := t1 ++ "#" ++ i1, sk := t1 ++ "#META" } ∧
    (single t1).fromId i1 = .ok { pk := t1 ++ "#" ++ i1, sk := t1 ++ "#META" } ∧
    (tenant t2).toKey r2 = { pk := "TENANT#" ++ tid, sk := t2 ++ "#" ++ i2 } ∧
    (hierarchy t3).toKey r3 = { pk := t3 ++ "#" ++ pid, sk := t3 ++ "#" ++ i3 } := by
  refine ⟨?_, rfl, ?_, ?_⟩ <;>
    simp [single, tenant, hierarchy, fieldStr, h1, h2, h2t, h3, h3p, Prim.jsStr]

/-- C9 witness at concrete inputs. -/
theorem C9_forward_key_shapes_witness :
    (single "USER").toKey [("id", .strV "42")] =
        { pk := "USER#42", sk := "USER#META" } ∧
    (single "USER").fromId "42" = .ok { pk := "USER#42", sk := "USER#META" } ∧
    (tenant "POST").toKey [("id", .strV "p1"), ("tenantId", .strV "t1")] =
        { pk := "TENANT#t1", sk := "POST#p1" } ∧
    (hierarchy "COMMENT").toKey [("id", .strV "c1"), ("parentId", .strV "post1")] =
        { pk := "COMMENT#post1", sk := "COMMENT#c1" } := by
  have h := C9_forward_key_shapes "USER" "POST" "COMMENT" "42" "p1" "c1" "t1" "post1"
    [("id", .strV "42")] [("id", .strV "p1"), ("tenantId", .strV "t1")]
    [("id", .strV "c1"), ("parentId", .strV "post1")] rfl rfl rfl rfl rfl
  exact h

/-- C8: the reverse mapping succeeds for the single variant and for a
custom variant built with a reverse function; it fails (with the
tenant/hierarchy-specific thrown messages realizing
`UnsupportedReverseMapping`) for tenant and hierarchy, and fails with the
`fromId not implemented` message realizing `NotImplemented` for a custom
variant built without one. -/
theorem C8_fromId_by_variant (t i : String) (tk : Rec → DodoKey)
    (f : String → DodoKey) :
    (single t).fromId i = .ok { pk := t ++ "#" ++ i, sk := t ++ "#META" } ∧
    (custom tk (some f)).fromId i = .ok (f i) ∧
    (tenant t).fromId i = .error "Tenant transformer requires tenantId" ∧
    (hierarchy t).fromId i = .error "Hierarchy transformer requires parentId" ∧
    (custom tk none).fromId i = .error "fromId not implemented" :=
  ⟨rfl, rfl, rfl, rfl, rfl⟩

/-! ## Claims about the plugin pipelines -/

/-- C2 counterexample: in the store-level pipeline, a handler yielding no
result (a JS function without a return statement yields `undefined`) does
NOT leave the prior running value unchanged — it replaces it with
`undefined`. -/
theorem C2_store_pipeline_counterexample :
    dodoApplyPlugins [{ onAfterGet := some (fun _ => .prim .undef) }]
        (fun p => p.onAfterGet) (.prim (.strV "x")) = .prim .undef ∧
    (JSVal.prim .undef) ≠ .prim (.strV "x") :=
  ⟨rfl, by decide⟩

/-- C2 amended: both pipelines invoke each present handler in list order,
each handler observing the cumulative running value (processing a
concatenation equals processing the prefix and then the suffix); one
entity-level step replaces the running value unless the handler's result
is nullish (`undefined` OR `null`, both passed over by `?? value`), while
one store-level step replaces the running value with the handler's result
unconditionally, including a nullish result. -/
theorem C2_pipeline_order_and_replacement :
    (∀ (l1 l2 : List EntityPlugin) (sel : EntityPlugin → Option (JSVal → JSVal)) (v : JSVal),
      entityApply1 (l1 ++ l2) sel v = entityApply1 l2 sel (entityApply1 l1 sel v)) ∧
    (∀ (l1 l2 : List EntityPlugin)
        (sel : EntityPlugin → Option (JSVal → JSVal → JSVal)) (v a : JSVal),
      entityApply2 (l1 ++ l2) sel v a = entityApply2 l2 sel (entityApply2 l1 sel v a) a) ∧
    (∀ (l1 l2 : List DodoPlugin) (sel : DodoPlugin → Option (JSVal → JSVal)) (v : JSVal),
      dodoApplyPlugins (l1 ++ l2) sel v = dodoApplyPlugins l2 sel (dodoApplyPlugins l1 sel v)) ∧
    (∀ (p : EntityPlugin) (ps : List EntityPlugin)
        (sel : EntityPlugin → Option (JSVal → JSVal)) (v : JSVal),
      entityApply1 (p :: ps) sel v =
        entityApply1 ps sel
          (match sel p with
           | some f => nullishOr (f v) v
           | none => v)) ∧
    (∀ (p : DodoPlugin) (ps : List DodoPlugin)
        (sel : DodoPlugin → Option (JSVal → JSVal)) (v : JSVal),
      dodoApplyPlugins (p :: ps) sel v =
        dodoApplyPlugins ps sel
          (match sel p with
           | some f => f v
           | none => v)) ∧
    (∀ (transformed v : JSVal),
      nullishOr transformed v =
        if transformed = .prim .undef ∨ transformed = .prim .null then v
        else transformed) := by
  refine ⟨?_, ?_, ?_, fun p ps sel v => rfl, fun p ps sel v => rfl, ?_⟩
  · intro l1 l2 sel v
    simp [entityApply1, List.foldl_append]
  · intro l1 l2 sel v a
    simp [entityApply2, List.foldl_append]
  · intro l1 l2 sel v
    simp [dodoApplyPlugins, List.foldl_append]
  · intro transformed v
    cases transformed with
    | obj r => simp [nullishOr]
    | prim p => cases p <;> simp [nullishOr]

/-- C3: the soft-delete plugin's `afterGet` returns `null` for a record
with `deleted = true`, but the entity pipeline's `transformed ?? value`
coalesces that `null` away, so `entity.get` returns the stored record
rather than absence: the filtered-out signal never reaches the caller,
although a physical record exists at the key.  (The claim and the
plugin's evident intent say the result should be absent.) -/
theorem C3_softDelete_filtering_inoperative :
    entityGet
      { name := "User", schema := fun r => .ok r, keys := single "USER",
        plugins := [softDelete "2024-01-01T00:00:00.000Z"] }
      [] [[("pk", .strV "USER#u1"), ("sk", .strV "USER#META"),
           ("id", .strV "u1"), ("deleted", .boolV true)]] "u1" =
      (.ok (.obj [("id", .strV "u1"), ("deleted", .boolV true)]),
       [.transportGet { pk := "USER#u1", sk := "USER#META" }]) ∧
    tableGet [[("pk", .strV "USER#u1"), ("sk", .strV "USER#META"),
               ("id", .strV "u1"), ("deleted", .boolV true)]]
        { pk := "USER#u1", sk := "USER#META" } ≠ none ∧
    (entityGet
      { name := "User", schema := fun r => .ok r, keys := single "USER",
        plugins := [softDelete "2024-01-01T00:00:00.000Z"] }
      [] [[("pk", .strV "USER#u1"), ("sk", .strV "USER#META"),
           ("id", .strV "u1"), ("deleted", .boolV true)]] "u1").1 ≠
      .ok (.prim .null) := by
  refine ⟨rfl, by decide, ?_⟩
  intro hcontra
  have hv : Except.ok (JSVal.obj [("id", .strV "u1"), ("deleted", .boolV true)]) =
      (Except.ok (.prim .null) : Except String JSVal) := hcontra
  injection hv with hv2
  exact absurd hv2 (by decide)

/-! ## Claims about the store facade's update -/

/-- C5: the facade `update` on a key holding no record fails with the
not-found error, leaves the stored state unchanged, and sends no write —
its transport trace is the single failed read. -/
theorem C5_update_missing_key (P : List DodoPlugin) (tbl : Table)
    (k : DodoKey) (updates : Rec) (h : tableGet tbl k = none) :
    dodoUpdate P tbl k updates =
      (.error ("Item not found: " ++ k.pk ++ "/" ++ k.sk), tbl,
       [.transportGet k]) := by
  simp [dodoUpdate, dodoGet, h, JSVal.truthy, Prim.truthy]

/-- C5 witness at a concrete empty table. -/
theorem C5_update_missing_key_witness :
    dodoUpdate [] [] { pk := "A", sk := "B" } [("y", .numV 2)] =
      (.error "Item not found: A/B", [], [.transportGet { pk := "A", sk := "B" }]) :=
  C5_update_missing_key [] [] { pk := "A", sk := "B" } [("y", .numV 2)] rfl

/-- C6: the facade `update` on a key holding a record computes the
shallow merge of the updates over the current record with the key fields
re-asserted from the key argument — updates win on non-key collisions,
`pk`/`sk` come from the key — and performs exactly one put of that merged
record (stated for an empty store-plugin list, so the written item is the
merged record itself). -/
theorem C6_update_merges_and_puts (tbl : Table) (k : DodoKey)
    (updates item : Rec) (h : tableGet tbl k = some item) :
    dodoUpdate [] tbl k updates =
      (.ok (), tablePut tbl (mergeRec (mergeRec item updates) (keyRec k)),
       [.transportGet k,
        .transportPut (mergeRec (mergeRec item updates) (keyRec k))]) ∧
    (mergeRec (mergeRec item updates) (keyRec k)).lookup "pk" = some (.strV k.pk) ∧
    (mergeRec (mergeRec item updates) (keyRec k)).lookup "sk" = some (.strV k.sk) ∧
    ∀ f, f ≠ "pk" → f ≠ "sk" →
      (mergeRec (mergeRec item updates) (keyRec k)).lookup f =
        (updates.lookup f).orElse (fun _ => item.lookup f) := by
  refine ⟨?_, ?_, ?_, ?_⟩
  · simp [dodoUpdate, dodoGet, h, dodoApplyPlugins, JSVal.truthy, jsToRec,
      dodoPut]
  · rw [mergeRec_lookup]
    simp [keyRec, lookup_cons]
  · rw [mergeRec_lookup]
    simp [keyRec, lookup_cons]
  · intro f hpk hsk
    rw [mergeRec_lookup, mergeRec_lookup]
    have hkey : (keyRec k).lookup f = none := by
      simp [keyRec, lookup_cons, Ne.symm hpk, Ne.symm hsk, Rec.lookup]
    simp [hkey]

/-- C6 witness at a concrete table, key and update map. -/
theorem C6_update_merges_and_puts_witness :
    dodoUpdate [] [[("pk", .strV "A"), ("sk", .strV "B"), ("x", .numV 1)]]
        { pk := "A", sk := "B" } [("y", .numV 2)] =
      (.ok (),
       tablePut [[("pk", .strV "A"), ("sk", .strV "B"), ("x", .numV 1)]]
         (mergeRec (mergeRec [("pk", .strV "A"), ("sk", .strV "B"), ("x", .numV 1)]
            [("y", .numV 2)]) (keyRec { pk := "A", sk := "B" })),
       [.transportGet { pk := "A", sk := "B" },
        .transportPut (mergeRec (mergeRec
          [("pk", .strV "A"), ("sk", .strV "B"), ("x", .numV 1)]
          [("y", .numV 2)]) (keyRec { pk := "A", sk := "B" }))]) ∧
    (mergeRec (mergeRec [("pk", .strV "A"), ("sk", .strV "B"), ("x", .numV 1)]
      [("y", .numV 2)]) (keyRec { pk := "A", sk := "B" })).lookup "y" =
        some (.numV 2) :=
  ⟨(C6_update_merges_and_puts
      [[("pk", .strV "A"), ("sk", .strV "B"), ("x", .numV 1)]]
      { pk := "A", sk := "B" } [("y", .numV 2)]
      [("pk", .strV "A"), ("sk", .strV "B"), ("x", .numV 1)] (by decide)).1,
   by
    rw [(C6_update_merges_and_puts
      [[("pk", .strV "A"), ("sk", .strV "B"), ("x", .numV 1)]]
      { pk := "A", sk := "B" } [("y", .numV 2)]
      [("pk", .strV "A"), ("sk", .strV "B"), ("x", .numV 1)] (by decide)).2.2.2 "y"
      (by decide) (by decide)]
    rfl⟩

theorem jsToRec_obj (r : Rec) : jsToRec (.obj r) = r := rfl

theorem truthy_obj (r : Rec) : (JSVal.obj r).truthy = true := rfl

/-! ## Claims about the entity-level update -/

/-- C1 counterexample: at a concrete entity (identity schema, `single`
keys, one pass-through `beforeUpdate` hook) and a stored record, the
source's entity update issues exactly one transport read and one write —
it writes through the facade `put` — while the claimed step sequence
(final write through the facade's own read-modify-write `update`)
re-fetches and so issues two reads: the traces differ, refuting the
claimed "facade re-fetches / two merge passes" behavior. -/
theorem C1_counterexample :
    (entityUpdate
      { name := "User", schema := fun r => .ok r, keys := single "USER",
        plugins := [{ beforeUpdate := some (fun _ u => u) }] }
      [] [[("pk", .strV "USER#u1"), ("sk", .strV "USER#META"),
           ("id", .strV "u1"), ("a", .numV 1)]] "u1" [("a", .numV 5)]).2.2 =
      [.transportGet { pk := "USER#u1", sk := "USER#META" },
       .transportPut [("id", .strV "u1"), ("a", .numV 5),
         ("pk", .strV "USER#u1"), ("sk", .strV "USER#META")]] ∧
    (entityUpdateClaimed
      { name := "User", schema := fun r => .ok r, keys := single "USER",
        plugins := [{ beforeUpdate := some (fun _ u => u) }] }
      [] [[("pk", .strV "USER#u1"), ("sk", .strV "USER#META"),
           ("id", .strV "u1"), ("a", .numV 1)]] "u1" [("a", .numV 5)]).2.2 =
      [.transportGet { pk := "USER#u1", sk := "USER#META" },
       .transportGet { pk := "USER#u1", sk := "USER#META" },
       .transportPut [("pk", .strV "USER#u1"), ("sk", .strV "USER#META"),
         ("id", .strV "u1"), ("a", .numV 5)]] ∧
    (entityUpdate
      { name := "User", schema := fun r => .ok r, keys := single "USER",
        plugins := [{ beforeUpdate := some (fun _ u => u) }] }
      [] [[("pk", .strV "USER#u1"), ("sk", .strV "USER#META"),
           ("id", .strV "u1"), ("a", .numV 1)]] "u1" [("a", .numV 5)]).2.2 ≠
    (entityUpdateClaimed
      { name := "User", schema := fun r => .ok r, keys := single "USER",
        plugins := [{ beforeUpdate := some (fun _ u => u) }] }
      [] [[("pk", .strV "USER#u1"), ("sk", .strV "USER#META"),
           ("id", .strV "u1"), ("a", .numV 1)]] "u1" [("a", .numV 5)]).2.2 :=
  ⟨rfl, rfl, by decide⟩

/-- C1 amended: on the success path, the entity update performs exactly
these steps: fetch the current value through `entity.get` (one transport
read); run the `beforeUpdate` hooks over the id and updates (the running
value threading through the hook chain); spread-merge the hook output
over the current value; validate the merged record; and write the
validated record with the reverse-mapped key fields spread in through a
single facade `put` (one transport write) — the facade performs no
re-fetch and no second merge pass.  Stated for an empty store-plugin
list, so the written item is the validated-plus-key record itself. -/
theorem C1_entity_update_single_put
    (cfg : EntityConfig) (tbl : Table) (i : String) (updates : Rec)
    (k : DodoKey) (item v0 validated : Rec) (current transformed : JSVal)
    (hk : cfg.keys.fromId i = .ok k)
    (hitem : tableGet tbl k = some item)
    (hv0 : cfg.schema (stripPkSk item) = .ok v0)
    (hcur : current = entityApply1 cfg.plugins (fun p => p.afterGet) (.obj v0))
    (htruthy : current.truthy = true)
    (htrans : transformed = entityApply2 cfg.plugins (fun p => p.beforeUpdate)
        (.prim (.strV i)) (.obj updates))
    (hval : cfg.schema (mergeRec (jsToRec current) (jsToRec transformed)) =
        .ok validated) :
    entityUpdate cfg [] tbl i updates =
      (.ok (.obj validated),
       tablePut tbl (mergeRec validated (keyRec k)),
       [.transportGet k, .transportPut (mergeRec validated (keyRec k))]) ∧
    (mergeRec validated (keyRec k)).lookup "pk" = some (.strV k.pk) ∧
    (mergeRec validated (keyRec k)).lookup "sk" = some (.strV k.sk) := by
  subst hcur htrans
  have hne : entityApply1 cfg.plugins (fun p => p.afterGet) (.obj v0) ≠
      .prim .undef := by
    intro heq
    rw [heq] at htruthy
    simp [JSVal.truthy, Prim.truthy] at htruthy
  refine ⟨?_, ?_, ?_⟩
  · simp [entityUpdate, entityGet, dodoGet, dodoPut, dodoApplyPlugins, hk,
      hitem, hv0, hval, hne, htruthy, jsToRec_obj, truthy_obj]
  · rw [mergeRec_lookup]
    simp [keyRec, lookup_cons]
  · rw [mergeRec_lookup]
    simp [keyRec, lookup_cons]

/-- C1 amended witness at the concrete entity of the counterexample. -/
theorem C1_entity_update_single_put_witness :
    entityUpdate
      { name := "User", schema := fun r => .ok r, keys := single "USER",
        plugins := [{ beforeUpdate := some (fun _ u => u) }] }
      [] [[("pk", .strV "USER#u1"), ("sk", .strV "USER#META"),
           ("id", .strV "u1"), ("a", .numV 1)]] "u1" [("a", .numV 5)] =
      (.ok (.obj [("id", .strV "u1"), ("a", .numV 5)]),
       tablePut [[("pk", .strV "USER#u1"), ("sk", .strV "USER#META"),
           ("id", .strV "u1"), ("a", .numV 1)]]
         (mergeRec [("id", .strV "u1"), ("a", .numV 5)]
           (keyRec { pk := "USER#u1", sk := "USER#META" })),
       [.transportGet { pk := "USER#u1", sk := "USER#META" },
        .transportPut (mergeRec [("id", .strV "u1"), ("a", .numV 5)]
          (keyRec { pk := "USER#u1", sk := "USER#META" }))]) ∧
    (mergeRec [("id", .strV "u1"), ("a", .numV 5)]
      (keyRec { pk := "USER#u1", sk := "USER#META" })).lookup "pk" =
        some (.strV "USER#u1") ∧
    (mergeRec [("id", .strV "u1"), ("a", .numV 5)]
      (keyRec { pk := "USER#u1", sk := "USER#META" })).lookup "sk" =
        some (.strV "USER#META") :=
  C1_entity_update_single_put
    { name := "User", schema := fun r => .ok r, keys := single "USER",
      plugins := [{ beforeUpdate := some (fun _ u => u) }] }
    [[("pk", .strV "USER#u1"), ("sk", .strV "USER#META"),
      ("id", .strV "u1"), ("a", .numV 1)]]
    "u1" [("a", .numV 5)] { pk := "USER#u1", sk := "USER#META" }
    [("pk", .strV "USER#u1"), ("sk", .strV "USER#META"),
     ("id", .strV "u1"), ("a", .numV 1)]
    [("id", .strV "u1"), ("a", .numV 1)]
    [("id", .strV "u1"), ("a", .numV 5)]
    (.obj [("id", .strV "u1"), ("a", .numV 1)])
    (.obj [("a", .numV 5)])
    rfl (by decide) rfl rfl rfl rfl rfl

/-! ## Claims about the filter expression compiler -/

/-- C4 counterexample: an AND (and likewise an OR) combinator with an
empty child list does not fail — the compiler silently emits the empty
group `()` with empty substitution tables. -/
theorem C4_counterexample :
    buildFilterExpression (.andF []) =
      .ok { expr := "()", names := [], values := [] } ∧
    buildFilterExpression (.orF []) =
      .ok { expr := "()", names := [], values := [] } :=
  ⟨rfl, rfl⟩

mutual

/-- Any tree containing a rejected shape makes `buildExpr` throw. -/
theorem buildExpr_bad_error : ∀ (f : FilterExpr) (s : BuildState),
    containsBad f = true → ∃ e, buildExpr f s = .error e
  | .eqF _ _, _ => by intro h; simp [containsBad] at h
  | .neF _ _, _ => by intro h; simp [containsBad] at h
  | .existsF _ _, _ => by intro h; simp [containsBad] at h
  | .containsF _ _, _ => by intro h; simp [containsBad] at h
  | .inF _ _, _ => by intro h; simp [containsBad] at h
  | .attrOnly a, s => fun _ =>
      ⟨"Unsupported filter condition on attribute " ++ a, rfl⟩
  | .malformedF, s => fun _ =>
      ⟨"Invalid filter expression: missing attribute, and, or, or not", rfl⟩
  | .andF fs, s => by
      intro h
      have h2 : containsBadList fs = true := by simpa [containsBad] using h
      obtain ⟨e, he⟩ := buildExprList_bad_error fs s h2
      exact ⟨e, by simp [buildExpr, he]⟩
  | .orF fs, s => by
      intro h
      have h2 : containsBadList fs = true := by simpa [containsBad] using h
      obtain ⟨e, he⟩ := buildExprList_bad_error fs s h2
      exact ⟨e, by simp [buildExpr, he]⟩
  | .notF f, s => by
      intro h
      have h2 : containsBad f = true := by simpa [containsBad] using h
      obtain ⟨e, he⟩ := buildExpr_bad_error f s h2
      exact ⟨e, by simp [buildExpr, he]⟩

/-- Any child list containing a rejected shape makes the child map
throw. -/
theorem buildExprList_bad_error : ∀ (fs : List FilterExpr) (s : BuildState),
    containsBadList fs = true → ∃ e, buildExprList fs s = .error e
  | [], _ => by intro h; simp [containsBadList] at h
  | f :: fs, s => by
      intro h
      rcases Bool.or_eq_true_iff.mp (by simpa [containsBadList] using h) with hf | hfs
      · obtain ⟨e, he⟩ := buildExpr_bad_error f s hf
        exact ⟨e, by simp [buildExprList, he]⟩
      · cases hb : buildExpr f s with
        | error e => exact ⟨e, by simp [buildExprList, hb]⟩
        | ok p =>
          obtain ⟨e, he⟩ := buildExprList_bad_error fs p.2 hfs
          exact ⟨e, by
            simp only [buildExprList, hb]
            rw [show p = (p.1, p.2) from rfl] at hb ⊢
            simp [he]⟩

end

/-- C4 amended: a leaf with no recognized operator shape, or a node with
no recognized shape, anywhere in the predicate tree makes the compiler
fail with the corresponding thrown error; but an AND/OR combinator with
an empty child list is NOT a failure — it silently compiles to the empty
group `()`. -/
theorem C4_invalid_shapes_fail_empty_groups_pass :
    (∀ f : FilterExpr, containsBad f = true →
      ∃ e, buildFilterExpression f = .error e) ∧
    buildFilterExpression (.andF []) =
      .ok { expr := "()", names := [], values := [] } ∧
    buildFilterExpression (.orF []) =
      .ok { expr := "()", names := [], values := [] } := by
  refine ⟨?_, rfl, rfl⟩
  intro f hf
  obtain ⟨e, he⟩ :=
    buildExpr_bad_error f { values := [], names := [], valueCounter := 0, nameCounter := 0 } hf
  exact ⟨e, by simp [buildFilterExpression, he]⟩

/-- C4 amended witness: a concrete malformed leaf fails. -/
theorem C4_invalid_shapes_witness :
    containsBad (.attrOnly "role") = true ∧
    ∃ e, buildFilterExpression (.attrOnly "role") = .error e :=
  ⟨by simp [containsBad],
   C4_invalid_shapes_fail_empty_groups_pass.1 (.attrOnly "role")
     (by simp [containsBad])⟩

/-! ### Placeholder freshness -/

theorem string_append_cancel (a b c : String) (h : a ++ b = a ++ c) : b = c := by
  have hd := congrArg String.data h
  rw [String.data_append, String.data_append] at hd
  exact String.ext (List.append_cancel_left hd)

theorem nkey_injective : Function.Injective nkey := by
  intro i j h
  exact decStr_injective i j (string_append_cancel "#n" _ _ h)

theorem vkey_injective : Function.Injective vkey := by
  intro i j h
  exact decStr_injective i j (string_append_cancel ":v" _ _ h)

theorem allocValues_state : ∀ (vs : List Prim) (s : BuildState),
    (allocValues vs s).2.nameCounter = s.nameCounter ∧
    (allocValues vs s).2.names = s.names ∧
    (allocValues vs s).2.valueCounter = s.valueCounter + vs.length ∧
    (allocValues vs s).2.values.map Prod.fst =
      s.values.map Prod.fst ++ (List.range' s.valueCounter vs.length).map vkey := by
  intro vs
  induction vs with
  | nil =>
    intro s
    refine ⟨rfl, rfl, rfl, ?_⟩
    simp [allocValues]
  | cons v rest ih =>
    intro s
    obtain ⟨h1, h2, h3, h4⟩ := ih (allocValue v s).2
    have estep : (allocValues (v :: rest) s).2 =
        (allocValues rest (allocValue v s).2).2 := rfl
    refine ⟨?_, ?_, ?_, ?_⟩
    · rw [estep, h1]
      rfl
    · rw [estep, h2]
      rfl
    · rw [estep, h3]
      show s.valueCounter + 1 + rest.length = s.valueCounter + (v :: rest).length
      simp [List.length_cons]
      omega
    · rw [estep, h4]
      have e2 : (allocValue v s).2.values = s.values ++ [(vkey s.valueCounter, v)] := rfl
      have e3 : (allocValue v s).2.valueCounter = s.valueCounter + 1 := rfl
      rw [e2, e3]
      have e4 : List.range' s.valueCounter ((v :: rest).length) =
          s.valueCounter :: List.range' (s.valueCounter + 1) rest.length := rfl
      rw [e4]
      simp [vkey]

mutual

/-- State-evolution invariant of one successful `buildExpr` step: the
counters only advance, and the tables extend by exactly the placeholders
of the counter values consumed. -/
theorem buildExpr_counters : ∀ (f : FilterExpr) (s : BuildState) (e : String)
    (s' : BuildState), buildExpr f s = .ok (e, s') →
    ∃ a b, s'.nameCounter = s.nameCounter + a ∧
      s'.valueCounter = s.valueCounter + b ∧
      s'.names.map Prod.fst =
        s.names.map Prod.fst ++ (List.range' s.nameCounter a).map nkey ∧
      s'.values.map Prod.fst =
        s.values.map Prod.fst ++ (List.range' s.valueCounter b).map vkey
  | .eqF attr v, s, e, s', h => by
    simp only [buildExpr, Except.ok.injEq, Prod.mk.injEq] at h
    obtain ⟨-, rfl⟩ := h
    refine ⟨1, 1, rfl, rfl, ?_, ?_⟩
    · have e1 : List.range' s.nameCounter 1 = [s.nameCounter] := rfl
      rw [e1]
      simp [allocName, allocValue, nkey]
    · have e1 : List.range' s.valueCounter 1 = [s.valueCounter] := rfl
      rw [e1]
      simp [allocName, allocValue, vkey]
  | .neF attr v, s, e, s', h => by
    simp only [buildExpr, Except.ok.injEq, Prod.mk.injEq] at h
    obtain ⟨-, rfl⟩ := h
    refine ⟨1, 1, rfl, rfl, ?_, ?_⟩
    · have e1 : List.range' s.nameCounter 1 = [s.nameCounter] := rfl
      rw [e1]
      simp [allocName, allocValue, nkey]
    · have e1 : List.range' s.valueCounter 1 = [s.valueCounter] := rfl
      rw [e1]
      simp [allocName, allocValue, vkey]
  | .existsF attr b, s, e, s', h => by
    simp only [buildExpr] at h
    cases b with
    | true =>
      simp only [if_true, Except.ok.injEq, Prod.mk.injEq] at h
      obtain ⟨-, rfl⟩ := h
      refine ⟨1, 0, rfl, rfl, ?_, ?_⟩
      · have e1 : List.range' s.nameCounter 1 = [s.nameCounter] := rfl
        rw [e1]
        simp [allocName, nkey]
      · simp [allocName]
    | false =>
      simp only [Bool.false_eq_true, if_false, Except.ok.injEq, Prod.mk.injEq] at h
      obtain ⟨-, rfl⟩ := h
      refine ⟨1, 0, rfl, rfl, ?_, ?_⟩
      · have e1 : List.range' s.nameCounter 1 = [s.nameCounter] := rfl
        rw [e1]
        simp [allocName, nkey]
      · simp [allocName]
  | .containsF attr v, s, e, s', h => by
    simp only [buildExpr, Except.ok.injEq, Prod.mk.injEq] at h
    obtain ⟨-, rfl⟩ := h
    refine ⟨1, 1, rfl, rfl, ?_, ?_⟩
    · have e1 : List.range' s.nameCounter 1 = [s.nameCounter] := rfl
      rw [e1]
      simp [allocName, allocValue, nkey]
    · have e1 : List.range' s.valueCounter 1 = [s.valueCounter] := rfl
      rw [e1]
      simp [allocName, allocValue, vkey]
  | .inF attr vs, s, e, s', h => by
    simp only [buildExpr, Except.ok.injEq, Prod.mk.injEq] at h
    obtain ⟨-, rfl⟩ := h
    obtain ⟨h1, h2, h3, h4⟩ := allocValues_state vs (allocName attr s).2
    refine ⟨1, vs.length, ?_, ?_, ?_, ?_⟩
    · rw [h1]; rfl
    · rw [h3]; rfl
    · rw [h2]
      have e1 : List.range' s.nameCounter 1 = [s.nameCounter] := rfl
      rw [e1]
      simp [allocName, nkey]
    · rw [h4]
      rfl
  | .attrOnly a, s, e, s', h => by
    simp only [buildExpr] at h
    exact absurd h (by simp)
  | .malformedF, s, e, s', h => by
    simp only [buildExpr] at h
    exact absurd h (by simp)
  | .andF fs, s, e, s', h => by
    simp only [buildExpr] at h
    cases hb : buildExprList fs s with
    | error e2 => rw [hb] at h; exact absurd h (by simp)
    | ok p =>
      obtain ⟨es, s1⟩ := p
      rw [hb] at h
      simp only [Except.ok.injEq, Prod.mk.injEq] at h
      obtain ⟨-, rfl⟩ := h
      exact buildExprList_counters fs s es s1 hb
  | .orF fs, s, e, s', h => by
    simp only [buildExpr] at h
    cases hb : buildExprList fs s with
    | error e2 => rw [hb] at h; exact absurd h (by simp)
    | ok p =>
      obtain ⟨es, s1⟩ := p
      rw [hb] at h
      simp only [Except.ok.injEq, Prod.mk.injEq] at h
      obtain ⟨-, rfl⟩ := h
      exact buildExprList_counters fs s es s1 hb
  | .notF f, s, e, s', h => by
    simp only [buildExpr] at h
    cases hb : buildExpr f s with
    | error e2 => rw [hb] at h; exact absurd h (by simp)
    | ok p =>
      obtain ⟨e1, s1⟩ := p
      rw [hb] at h
      simp only [Except.ok.injEq, Prod.mk.injEq] at h
      obtain ⟨-, rfl⟩ := h
      exact buildExpr_counters f s e1 s1 hb

/-- The list version of the state-evolution invariant. -/
theorem buildExprList_counters : ∀ (fs : List FilterExpr) (s : BuildState)
    (es : List String) (s' : BuildState),
    buildExprList fs s = .ok (es, s') →
    ∃ a b, s'.nameCounter = s.nameCounter + a ∧
      s'.valueCounter = s.valueCounter + b ∧
      s'.names.map Prod.fst =
        s.names.map Prod.fst ++ (List.range' s.nameCounter a).map nkey ∧
      s'.values.map Prod.fst =
        s.values.map Prod.fst ++ (List.range' s.valueCounter b).map vkey
  | [], s, es, s', h => by
    simp only [buildExprList, Except.ok.injEq, Prod.mk.injEq] at h
    obtain ⟨-, rfl⟩ := h
    exact ⟨0, 0, rfl, rfl, by simp, by simp⟩
  | f :: fs, s, es, s', h => by
    simp only [buildExprList] at h
    cases hb : buildExpr f s with
    | error e2 => rw [hb] at h; exact absurd h (by simp)
    | ok p =>
      obtain ⟨e1, s1⟩ := p
      rw [hb] at h
      have h2 : (match buildExprList fs s1 with
          | .error e2 => Except.error e2
          | .ok (es2, s2) => Except.ok (e1 :: es2, s2)) = Except.ok (es, s') := h
      clear h
      cases hb2 : buildExprList fs s1 with
      | error e2 => rw [hb2] at h2; exact absurd h2 (by simp)
      | ok q =>
        obtain ⟨es2, s2⟩ := q
        rw [hb2] at h2
        simp only [Except.ok.injEq, Prod.mk.injEq] at h2
        obtain ⟨-, rfl⟩ := h2
        obtain ⟨a1, b1, hc1, hd1, hn1, hv1⟩ := buildExpr_counters f s e1 s1 hb
        obtain ⟨a2, b2, hc2, hd2, hn2, hv2⟩ := buildExprList_counters fs s1 es2 s2 hb2
        refine ⟨a1 + a2, b1 + b2, by omega, by omega, ?_, ?_⟩
        · rw [hn2, hn1, hc1, List.append_assoc, ← List.map_append]
          have hr := List.range'_append s.nameCounter a1 a2 1
          simp only [one_mul] at hr
          rw [hr, Nat.add_comm a2 a1]
        · rw [hv2, hv1, hd1, List.append_assoc, ← List.map_append]
          have hr := List.range'_append s.valueCounter b1 b2 1
          simp only [one_mul] at hr
          rw [hr, Nat.add_comm b2 b1]

end

/-- C7: the documented predicate compiles to exactly the documented
expression and substitution tables, and for every predicate every
successful compilation allocates pairwise-distinct name placeholders and
pairwise-distinct value placeholders (the counters are shared across the
whole call, so no two placeholders collide). -/
theorem C7_compile_shape_and_fresh_placeholders :
    buildFilterExpression
      (.andF [.eqF "role" (.strV "admin"), .neF "status" (.strV "inactive")]) =
      .ok { expr := "(#n0 = :v0 AND #n1 <> :v1)",
            names := [("#n0", "role"), ("#n1", "status")],
            values := [(":v0", .strV "admin"), (":v1", .strV "inactive")] } ∧
    ∀ (f : FilterExpr) (c : CompiledFilter), buildFilterExpression f = .ok c →
      (c.names.map Prod.fst).Nodup ∧ (c.values.map Prod.fst).Nodup := by
  refine ⟨rfl, ?_⟩
  intro f c h
  simp only [buildFilterExpression] at h
  cases hb : buildExpr f
      { values := [], names := [], valueCounter := 0, nameCounter := 0 } with
  | error e => rw [hb] at h; exact absurd h (by simp)
  | ok p =>
    obtain ⟨e, s'⟩ := p
    rw [hb] at h
    simp only [Except.ok.injEq] at h
    obtain ⟨a, b, -, -, hn, hv⟩ := buildExpr_counters f _ e s' hb
    constructor
    · rw [← h]
      simp only [List.nil_append] at hn
      show (s'.names.map Prod.fst).Nodup
      rw [hn]
      exact (List.nodup_range' 0 a).map nkey_injective
    · rw [← h]
      simp only [List.nil_append] at hv
      show (s'.values.map Prod.fst).Nodup
      rw [hv]
      exact (List.nodup_range' 0 b).map vkey_injective

/-- C7 witness: the freshness clause applied at the documented concrete
predicate. -/
theorem C7_fresh_placeholders_witness :
    (([("#n0", "role"), ("#n1", "status")] : List (String × String)).map
        Prod.fst).Nodup ∧
    (([(":v0", Prim.strV "admin"), (":v1", Prim.strV "inactive")] :
        List (String × Prim)).map Prod.fst).Nodup :=
  C7_compile_shape_and_fresh_placeholders.2
    (.andF [.eqF "role" (.strV "admin"), .neF "status" (.strV "inactive")])
    { expr := "(#n0 = :v0 AND #n1 <> :v1)",
      names := [("#n0", "role"), ("#n1", "status")],
      values := [(":v0", .strV "admin"), (":v1", .strV "inactive")] }
    C7_compile_shape_and_fresh_placeholders.1

/-! ## Claims about the encryption plugin -/

theorem tableGet_tablePut (tbl : Table) (item : Rec)
    (h : atKey (recKeyOf item) item = true) :
    tableGet (tablePut tbl item) (recKeyOf item) = some item := by
  unfold tableGet tablePut
  rw [List.find?_append]
  have h1 : (tbl.filter (fun r => !(atKey (recKeyOf item) r))).find?
      (atKey (recKeyOf item)) = none := by
    rw [List.find?_eq_none]
    intro x hx
    rw [List.mem_filter] at hx
    simpa using hx.2
  rw [h1]
  simp [List.find?, h]

theorem lookup_map_entry (g : String × Prim → Prim) (r : Rec) (k : String) :
    Rec.lookup (r.map (fun p => (p.1, g p))) k =
      (r.find? (fun p => p.1 = k)).map (fun p => g p) := by
  induction r with
  | nil => rfl
  | cons p ps ih =>
    by_cases hp : p.1 = k
    · simp [Rec.lookup, List.find?, hp]
    · rw [List.map_cons, lookup_cons]
      simp only [hp, if_false]
      rw [List.find?_cons_of_neg ps (by simpa using hp)]
      exact ih

/-- The `fields.forEach` loop acts on each record entry independently:
entry values receive one application of `f` per occurrence of their key
in `fields` (the presence guard is invariant along the fold, since keys
never change). -/
theorem mapListedFields_eq_map (f : Prim → Prim) :
    ∀ (fields : List String) (r : Rec),
    mapListedFields fields f r =
      r.map (fun p => (p.1, f^[fields.count p.1] p.2)) := by
  intro fields
  induction fields with
  | nil =>
    intro r
    simp [mapListedFields, List.count_nil]
  | cons field rest ih =>
    intro r
    have hstep : mapListedFields (field :: rest) f r =
        mapListedFields rest f (applyField f r field) := rfl
    rw [hstep, ih (applyField f r field)]
    by_cases hpres : (r.lookup field).isSome
    · have happ : applyField f r field =
          r.map (fun p => if p.1 = field then (p.1, f p.2) else p) := by
        simp [applyField, hpres]
      rw [happ, List.map_map]
      refine List.map_congr_left ?_
      intro p _
      by_cases hp : p.1 = field
      · subst hp
        simp only [Function.comp, if_pos rfl, List.count_cons, beq_self_eq_true,
          if_true]
        rw [← Function.iterate_succ_apply]
      · simp only [Function.comp, if_neg hp, List.count_cons]
        have hne : (field == p.1) = false := by
          simpa using fun heq => hp heq.symm
        simp [hne]
    · have hnone : r.lookup field = none := by
        cases hx : r.lookup field with
        | none => rfl
        | some v => rw [hx] at hpres; simp at hpres
      have habs : applyField f r field = r := by
        simp [applyField, hnone]
      rw [habs]
      refine List.map_congr_left ?_
      intro p hp
      have hne : p.1 ≠ field := by
        intro heq
        have hfind : r.find? (fun q => q.1 = field) = none := by
          cases hf2 : r.find? (fun q => q.1 = field) with
          | none => rfl
          | some q =>
            have h2 : Rec.lookup r field = some q.2 := by
              simp [Rec.lookup, hf2]
            rw [hnone] at h2
            exact absurd h2 (by simp)
        have := List.find?_eq_none.mp hfind p hp
        simp [heq] at this
      have hcount : (field :: rest).count p.1 = rest.count p.1 := by
        rw [List.count_cons]
        have hne2 : (field == p.1) = false := by
          simpa using fun heq => hne heq.symm
        simp [hne2]
      rw [hcount]

theorem mapListedFields_lookup_not_mem (fields : List String) (f : Prim → Prim)
    (r : Rec) (k : String) (hk : k ∉ fields) :
    (mapListedFields fields f r).lookup k = r.lookup k := by
  rw [mapListedFields_eq_map]
  rw [lookup_map_entry (fun p => f^[fields.count p.1] p.2) r k]
  show _ = (r.find? (fun p => p.1 = k)).map (fun p => p.2)
  cases hf : r.find? (fun p => p.1 = k) with
  | none => rfl
  | some p =>
    have hpk : p.1 = k := by simpa using List.find?_some hf
    have hcount : fields.count p.1 = 0 := by
      rw [hpk]
      exact List.count_eq_zero_of_not_mem hk
    simp [hcount]

/-- Iterated decryption undoes iterated encryption on a serializable
value: each intermediate ciphertext is an `encrypt` output and so
serializable by closure. -/
theorem decrypt_iterate_encrypt (pf : JsonPlatform) (Ser : Prim → Prop)
    (hRT : ∀ v, Ser v →
      pf.parseJ (pf.b64dec (pf.b64enc (pf.stringifyJ v))) = some v)
    (hclose : ∀ v, Ser v → Ser (encrypt pf v)) :
    ∀ (n : Nat) (v : Prim), Ser v →
      (decrypt pf)^[n] ((encrypt pf)^[n] v) = v := by
  intro n
  induction n with
  | zero => intro v _; rfl
  | succ n ih =>
    intro v hv
    rw [show (encrypt pf)^[n + 1] v = (encrypt pf)^[n] (encrypt pf v) from
      Function.iterate_succ_apply _ _ _]
    rw [show (decrypt pf)^[n + 1] ((encrypt pf)^[n] (encrypt pf v)) =
        decrypt pf ((decrypt pf)^[n] ((encrypt pf)^[n] (encrypt pf v))) from
      Function.iterate_succ_apply' _ _ _]
    rw [ih (encrypt pf v) (hclose v hv)]
    simp [encrypt, decrypt, hRT v hv]

theorem mapListedFields_roundtrip (pf : JsonPlatform) (Ser : Prim → Prop)
    (hRT : ∀ v, Ser v →
      pf.parseJ (pf.b64dec (pf.b64enc (pf.stringifyJ v))) = some v)
    (hclose : ∀ v, Ser v → Ser (encrypt pf v))
    (fields : List String) (r : Rec)
    (hr : ∀ p ∈ r, p.1 ∈ fields → Ser p.2) :
    mapListedFields fields (decrypt pf)
      (mapListedFields fields (encrypt pf) r) = r := by
  rw [mapListedFields_eq_map, mapListedFields_eq_map, List.map_map]
  have hpt : ∀ p ∈ r,
      ((fun p => (p.1, (decrypt pf)^[fields.count p.1] p.2)) ∘
        (fun p => (p.1, (encrypt pf)^[fields.count p.1] p.2))) p = id p := by
    intro p hp
    simp only [Function.comp, id]
    by_cases hm : p.1 ∈ fields
    · rw [decrypt_iterate_encrypt pf Ser hRT hclose (fields.count p.1) p.2
        (hr p hp hm)]
    · rw [List.count_eq_zero_of_not_mem hm]
      simp
  rw [List.map_congr_left hpt, List.map_id]

/-- C10: with JSON-serializability modeled abstractly — the platform
JSON/base64 codec round-trips every serializable value, and the output
of `encrypt` (a base64 string) is itself serializable — `decrypt`
inverts `encrypt` on every serializable value; consequently the
encryption plugin's `onAfterGet` inverts its `onBeforePut` on the listed
fields (one transformation per occurrence of each listed field,
mirroring the source's `fields.forEach` loop, so a duplicated fields
list double-encrypts yet still round-trips), and a record put and then
got through the encryption plugin alone comes back unchanged. -/
theorem C10_encrypt_decrypt_roundtrip (pf : JsonPlatform) (Ser : Prim → Prop)
    (hRT : ∀ v, Ser v →
      pf.parseJ (pf.b64dec (pf.b64enc (pf.stringifyJ v))) = some v)
    (hclose : ∀ v, Ser v → Ser (encrypt pf v))
    (fields : List String) (r : Rec)
    (hr : ∀ p ∈ r, p.1 ∈ fields → Ser p.2) :
    (∀ v : Prim, Ser v → decrypt pf (encrypt pf v) = v) ∧
    dodoApplyPlugins [encryption pf fields] (fun p => p.onAfterGet)
      (dodoApplyPlugins [encryption pf fields] (fun p => p.onBeforePut)
        (.obj r)) = .obj r ∧
    (∀ (tbl : Table) (pkv skv : String),
      r.lookup "pk" = some (.strV pkv) → r.lookup "sk" = some (.strV skv) →
      "pk" ∉ fields → "sk" ∉ fields →
      dodoGet [encryption pf fields]
        (dodoPut [encryption pf fields] tbl (.obj r)).1 (recKeyOf r) =
        (.obj r, [.transportGet (recKeyOf r)])) := by
  refine ⟨?_, ?_, ?_⟩
  · intro v hv
    simp [encrypt, decrypt, hRT v hv]
  · simp only [dodoApplyPlugins, List.foldl_cons, List.foldl_nil, encryption,
      jsToRec_obj]
    rw [mapListedFields_roundtrip pf Ser hRT hclose fields r hr]
  · intro tbl pkv skv hpk hsk hpkf hskf
    have henc_pk : (mapListedFields fields (encrypt pf) r).lookup "pk" =
        some (.strV pkv) := by
      rw [mapListedFields_lookup_not_mem fields _ r "pk" hpkf, hpk]
    have henc_sk : (mapListedFields fields (encrypt pf) r).lookup "sk" =
        some (.strV skv) := by
      rw [mapListedFields_lookup_not_mem fields _ r "sk" hskf, hsk]
    have hkeys : recKeyOf (mapListedFields fields (encrypt pf) r) = recKeyOf r := by
      simp [recKeyOf, henc_pk, henc_sk, hpk, hsk]
    have hat : atKey (recKeyOf (mapListedFields fields (encrypt pf) r))
        (mapListedFields fields (encrypt pf) r) = true := by
      rw [hkeys]
      simp [atKey, recKeyOf, hpk, hsk, henc_pk, henc_sk]
    have hput : (dodoPut [encryption pf fields] tbl (.obj r)).1 =
        tablePut tbl (mapListedFields fields (encrypt pf) r) := by
      simp [dodoPut, dodoApplyPlugins, encryption, jsToRec_obj]
    rw [hput]
    have hget := tableGet_tablePut tbl (mapListedFields fields (encrypt pf) r) hat
    rw [hkeys] at hget
    simp only [dodoGet, hget]
    simp only [dodoApplyPlugins, List.foldl_cons, List.foldl_nil, encryption,
      jsToRec_obj]
    rw [mapListedFields_roundtrip pf Ser hRT hclose fields r hr]

/-- C10 witness: a concrete platform and serializable set satisfying the
contract, exercised with a DUPLICATED fields list, so the secret field
is encrypted twice on the way in and decrypted twice on the way out. -/
theorem C10_encrypt_decrypt_roundtrip_witness :
    decrypt
      { stringifyJ := fun v => match v with | .strV s => s | _ => "z",
        parseJ := fun t => some (.strV t),
        b64enc := fun s => s, b64dec := fun s => s }
      (encrypt
        { stringifyJ := fun v => match v with | .strV s => s | _ => "z",
          parseJ := fun t => some (.strV t),
          b64enc := fun s => s, b64dec := fun s => s } (.strV "3")) = .strV "3" ∧
    dodoApplyPlugins
      [encryption
        { stringifyJ := fun v => match v with | .strV s => s | _ => "z",
          parseJ := fun t => some (.strV t),
          b64enc := fun s => s, b64dec := fun s => s } ["secret", "secret"]]
      (fun p => p.onAfterGet)
      (dodoApplyPlugins
        [encryption
          { stringifyJ := fun v => match v with | .strV s => s | _ => "z",
            parseJ := fun t => some (.strV t),
            b64enc := fun s => s, b64dec := fun s => s } ["secret", "secret"]]
        (fun p => p.onBeforePut)
        (.obj [("pk", .strV "A"), ("sk", .strV "B"), ("secret", .strV "3")])) =
      .obj [("pk", .strV "A"), ("sk", .strV "B"), ("secret", .strV "3")] := by
  have h := C10_encrypt_decrypt_roundtrip
    { stringifyJ := fun v => match v with | .strV s => s | _ => "z",
      parseJ := fun t => some (.strV t),
      b64enc := fun s => s, b64dec := fun s => s }
    (fun v => ∃ s, v = .strV s)
    (by
      intro v hv
      obtain ⟨s, rfl⟩ := hv
      rfl)
    (by
      intro v _
      exact ⟨_, rfl⟩)
    ["secret", "secret"]
    [("pk", .strV "A"), ("sk", .strV "B"), ("secret", .strV "3")]
    (by
      intro p hp _
      simp only [List.mem_cons, List.not_mem_nil, or_false] at hp
      rcases hp with rfl | rfl | rfl
      · exact ⟨"A", rfl⟩
      · exact ⟨"B", rfl⟩
      · exact ⟨"3", rfl⟩)
  exact ⟨h.1 (.strV "3") ⟨"3", rfl⟩, h.2.1⟩

end Dodo
